import Mathlib

/-!
Verification development for the alert subsystem of a Telegram crypto bot
(single source file `bot.py`).  The Python functions relevant to the alert
engine are shallowly embedded below:

* numeric values flowing through the alert engine (Python floats) are
  modelled by `PyFloat`: an exact rational for finite values plus the three
  special values produced by Python float parsing (`inf`, `-inf`, `nan`);
  finite arithmetic is idealised as exact rational arithmetic, which is
  faithful for the order comparisons the code performs;
* the persisted alert store (`data/alerts.json`) is modelled as a
  `List Alert`; reading and writing the file, including the swallowed
  exceptions of `_safe_read_json` and `_safe_write_json`, is modelled
  separately at the JSON level (`ReadOutcome`, `Json`);
* the background checker `alerts_checker` is modelled one cycle at a time
  by `runCycle`, which consumes a price oracle
  (`priceOf : String → Option PyFloat`, covering both a `None` return of
  `get_symbol_price` and a raised exception, which the code maps to the
  same state) and a delivery oracle (`ok : ℤ → Bool`, telling whether
  `bot.send_message` to a given user succeeds or raises), and produces the
  store contents persisted at the end of the cycle together with the trace
  of externally visible events (price fetches, notification attempts, the
  batched save).
-/

/-- Value of a Python float as far as the alert engine distinguishes them:
a finite value (idealised as an exact rational), the two infinities, or a
NaN.  Python `float(...)` on the token strings accepted by
`parse_alert_input` produces exactly these. -/
inductive PyFloat where
  | finite (q : ℚ)
  | inf
  | ninf
  | nan
deriving DecidableEq

/-- IEEE comparison `x <= y` as Python evaluates it on floats: any
comparison with a NaN is false, `-inf` is below everything else, `inf` is
above everything else, and finite values compare as rationals. -/
def PyFloat.le : PyFloat → PyFloat → Bool
  | .finite a, .finite b => decide (a ≤ b)
  | .nan, _ => false
  | _, .nan => false
  | .ninf, _ => true
  | _, .inf => true
  | _, _ => false

/-- IEEE comparison `x >= y`, i.e. `y <= x`. -/
def PyFloat.ge (x y : PyFloat) : Bool := PyFloat.le y x

/-- Whether a value is a strictly positive finite float (what the spec
asserts of every stored target). -/
def PyFloat.isPosFinite : PyFloat → Bool
  | .finite q => decide (0 < q)
  | _ => false

/-- One record of `data/alerts.json` as created by `add_alert` in
`bot.py`: keys `user_id`, `symbol`, `direction`, `target`, `active`,
`created_at`. -/
structure Alert where
  user_id : ℤ
  symbol : String
  direction : String
  target : PyFloat
  active : Bool
  created_at : String
deriving DecidableEq

/-- Default record used only as the `List.getD` fallback in statements. -/
def defaultAlert : Alert :=
  { user_id := 0, symbol := "", direction := "", target := .finite 0,
    active := false, created_at := "" }

/-- Python `str.upper()` restricted to the ASCII data the bot handles:
uppercase every character. -/
def pyUpper (s : String) : String := ⟨s.data.map Char.toUpper⟩

/-- Python `str.strip()`: drop leading and trailing whitespace. -/
def pyStrip (cs : List Char) : List Char :=
  ((cs.dropWhile Char.isWhitespace).reverse.dropWhile Char.isWhitespace).reverse

/-- Helper for `wsSplit`: accumulates the current token (reversed). -/
def wsSplitGo : List Char → List Char → List (List Char)
  | cur, [] => if cur.isEmpty then [] else [cur.reverse]
  | cur, c :: cs =>
    if c.isWhitespace then
      if cur.isEmpty then wsSplitGo [] cs else cur.reverse :: wsSplitGo [] cs
    else wsSplitGo (c :: cur) cs

/-- Python `str.split()` with no separator: split on runs of whitespace,
never producing empty tokens. -/
def wsSplit (cs : List Char) : List (List Char) := wsSplitGo [] cs

/-- Numeric value of a digit string, most significant digit first. -/
def natOfDigits (ds : List Char) : ℕ :=
  ds.foldl (fun n c => 10 * n + (c.toNat - 48)) 0

/-- Whether every character is an ASCII digit. -/
def allDigits (ds : List Char) : Bool := ds.all Char.isDigit

/-- Splits a character list at the first occurrence of `c`, if any. -/
def breakAt (c : Char) : List Char → Option (List Char × List Char)
  | [] => none
  | x :: xs =>
    if x = c then some ([], xs)
    else
      match breakAt c xs with
      | some (l, r) => some (x :: l, r)
      | none => none

/-- Unsigned mantissa of a Python float literal: digits with an optional
dot, at least one digit overall. -/
def parseUnsignedMantissa (cs : List Char) : Option ℚ :=
  match breakAt '.' cs with
  | none =>
    if cs.isEmpty then none
    else if allDigits cs then some ((natOfDigits cs : ℕ) : ℚ) else none
  | some (ip, fp) =>
    if allDigits ip && allDigits fp && !(ip.isEmpty && fp.isEmpty) then
      some (((natOfDigits ip : ℕ) : ℚ) + ((natOfDigits fp : ℕ) : ℚ) / (10 ^ fp.length))
    else none

/-- Exponent part of a Python float literal: optional sign, then digits. -/
def parseExpPart (cs : List Char) : Option ℤ :=
  match cs with
  | '+' :: r => if r.isEmpty then none else if allDigits r then some ((natOfDigits r : ℕ) : ℤ) else none
  | '-' :: r => if r.isEmpty then none else if allDigits r then some (-((natOfDigits r : ℕ) : ℤ)) else none
  | r => if r.isEmpty then none else if allDigits r then some ((natOfDigits r : ℕ) : ℤ) else none

/-- Finite numeric case of Python float parsing: mantissa with an optional
`E` exponent. The input has already been uppercased by the caller. -/
def parseNumeric (cs : List Char) : Option ℚ :=
  match breakAt 'E' cs with
  | none => parseUnsignedMantissa cs
  | some (m, e) =>
    match parseUnsignedMantissa m, parseExpPart e with
    | some mv, some ev => some (mv * (10 : ℚ) ^ ev)
    | _, _ => none

/-- Model of Python `float(token)` on the whitespace-free uppercase tokens
produced by `parse_alert_input`: an optional sign followed by `INF`,
`INFINITY`, `NAN`, or a decimal numeral with optional fraction and
exponent.  (Digit-group underscores, which CPython also accepts, are left
out; no claim touches them.  Rounding of finite values to binary doubles
is idealised away: values are kept exact.) -/
def pyFloatOfToken (cs : List Char) : Option PyFloat :=
  let signed : Bool × List Char :=
    match cs with
    | '+' :: r => (false, r)
    | '-' :: r => (true, r)
    | r => (false, r)
  let neg := signed.1
  let body := signed.2
  if body = ['I', 'N', 'F'] ∨ body = ['I', 'N', 'F', 'I', 'N', 'I', 'T', 'Y'] then
    some (if neg then .ninf else .inf)
  else if body = ['N', 'A', 'N'] then
    some .nan
  else
    match parseNumeric body with
    | some q => some (.finite (if neg then -q else q))
    | none => none

/-- The crypto symbol table `COIN_IDS` of `bot.py`. -/
def COIN_IDS : List (String × String) :=
  [("BTC", "bitcoin"), ("ETH", "ethereum"), ("SOL", "solana"), ("USDT", "tether")]

/-- The FX pair set `FX_PAIRS` of `bot.py`. -/
def FX_PAIRS : List String := ["USDUAH", "EURUAH"]

/-- Embedding of `parse_alert_input` (bot.py lines 1220-1243): strip,
uppercase, replace commas by dots, split on whitespace, optionally join a
leading `USD UAH` or `EUR UAH` pair, then require exactly three tokens
whose direction is `ABOVE` or `BELOW`, whose target parses as a Python
float, and whose symbol is a known coin or FX pair. -/
def parse_alert_input (text : String) : Option (String × String × PyFloat) :=
  if text = "" then none
  else
    let s : List Char :=
      ((pyStrip text.data).map Char.toUpper).map (fun c => if c = ',' then '.' else c)
    let parts0 : List String := (wsSplit s).map (fun t => ⟨t⟩)
    let parts : List String :=
      if 4 ≤ parts0.length ∧ (parts0.getD 0 "" = "USD" ∨ parts0.getD 0 "" = "EUR")
          ∧ parts0.getD 1 "" = "UAH" then
        (parts0.getD 0 "" ++ parts0.getD 1 "") :: parts0.drop 2
      else parts0
    match parts with
    | [symbol, direction, target_s] =>
      if direction = "ABOVE" ∨ direction = "BELOW" then
        match pyFloatOfToken target_s.data with
        | some target =>
          if COIN_IDS.any (fun kv => kv.1 == symbol) then some (symbol, direction, target)
          else if FX_PAIRS.contains symbol then some (symbol, direction, target)
          else none
        | none => none
      else none
    | _ => none

/-- Embedding of `add_alert` (bot.py lines 1257-1269) at the collection
level: append a fresh record with `active := true`.  The surrounding
`load_alerts` and `save_alerts` calls are factored out (the collection is
passed and returned); the wall-clock timestamp is passed explicitly. -/
def add_alert (user_id : ℤ) (symbol direction : String) (target : PyFloat)
    (created_at : String) (items : List Alert) : List Alert :=
  items ++ [{ user_id := user_id, symbol := pyUpper symbol,
              direction := pyUpper direction, target := target,
              active := true, created_at := created_at }]

/-- Embedding of `list_alerts` (bot.py lines 1272-1274): the owner
subsequence of the collection, in stored order. -/
def list_alerts (user_id : ℤ) (items : List Alert) : List Alert :=
  items.filter (fun a => a.user_id == user_id)

/-- The index list `user_items` computed inside `deactivate_alert`
(bot.py line 1279): `[i for i, a in enumerate(items) if
int(a.get("user_id", 0)) == int(user_id)]`, with the enumeration counter
made explicit. -/
def ownerPositionsFrom (user_id : ℤ) (n : ℕ) : List Alert → List ℕ
  | [] => []
  | a :: l =>
    if a.user_id == user_id then n :: ownerPositionsFrom user_id (n + 1) l
    else ownerPositionsFrom user_id (n + 1) l

/-- Global indices of one owner alerts, in stored order. -/
def ownerPositions (user_id : ℤ) (items : List Alert) : List ℕ :=
  ownerPositionsFrom user_id 0 items

/-- Sets `active := False` on the record at global index `p`
(the mutation `items[real_i]["active"] = False`). -/
def setInactive : List Alert → ℕ → List Alert
  | [], _ => []
  | a :: l, 0 => { a with active := false } :: l
  | a :: l, n + 1 => a :: setInactive l n

/-- Embedding of `deactivate_alert` (bot.py lines 1277-1285) at the
collection level: an out-of-range index returns the collection unchanged
with `false` (no save happens); an in-range index flips `active` of the
record at the owner-relative position and returns `true`. -/
def deactivate_alert (user_id : ℤ) (idx : ℤ) (items : List Alert) :
    List Alert × Bool :=
  let user_items := ownerPositions user_id items
  if idx < 0 ∨ (user_items.length : ℤ) ≤ idx then (items, false)
  else (setInactive items (user_items.getD idx.toNat 0), true)

/-- Lexicographic code-point comparison of character lists, matching how
Python `sorted` orders strings. -/
def charsLe : List Char → List Char → Bool
  | [], _ => true
  | _ :: _, [] => false
  | a :: as, b :: bs => if a < b then true else if b < a then false else charsLe as bs

/-- String comparison used to model Python `sorted` on symbol strings. -/
def strLeB (s t : String) : Bool := charsLe s.data t.data

/-- Insertion into a list sorted by `strLeB`. -/
def insortStr (s : String) : List String → List String
  | [] => [s]
  | t :: r => if strLeB s t then s :: t :: r else t :: insortStr s r

/-- Ascending insertion sort by `strLeB`, modelling Python `sorted`. -/
def sortStrings : List String → List String
  | [] => []
  | s :: r => insortStr s (sortStrings r)

/-- The raw `symbol` values of the currently active records, in stored
order (the generator inside `sorted({a.get("symbol") for a in items if
a.get("active")})`). -/
def activeRawSymbols (items : List Alert) : List String :=
  (items.filter (fun a => a.active)).map (fun a => a.symbol)

/-- The deduplicated, ascending symbol list `symbols` of one checker cycle
(bot.py line 1558): `sorted({...})`. -/
def activeSymbols (items : List Alert) : List String :=
  sortStrings (activeRawSymbols items).dedup

/-- The symbols actually fetched in a cycle: the loop at bot.py lines
1560-1567 skips falsy (empty) symbols via `if not sym: continue`. -/
def fetchList (items : List Alert) : List String :=
  (activeSymbols items).filter (fun s => !(s == ""))

/-- The `prices` dict built by the fetch loop, as an association list in
insertion order: each fetched symbol is mapped to the oracle result, where
`none` covers both a `None` return of `get_symbol_price` and a raised
exception (the code stores `None` in both cases). -/
def cyclePrices (priceOf : String → Option PyFloat) (items : List Alert) :
    List (String × Option PyFloat) :=
  (fetchList items).map (fun s => (s, priceOf s))

/-- Lookup in the `prices` dict via `prices.get(sym)`: an absent key and a
stored `None` both yield `none`. -/
def lookupPrice (prices : List (String × Option PyFloat)) (sym : String) :
    Option PyFloat :=
  match prices.find? (fun kv => kv.1 == sym) with
  | some kv => kv.2
  | none => none

/-- The firing condition of the evaluation loop (bot.py line 1579):
`(direction == "ABOVE" and cur >= target) or (direction == "BELOW" and
cur <= target)`, with `direction` already uppercased by the caller. -/
def alertHit (direction : String) (target cur : PyFloat) : Bool :=
  (direction == "ABOVE" && cur.ge target) || (direction == "BELOW" && cur.le target)

/-- Externally visible actions of one checker cycle, in order: a price
fetch for a symbol, an attempted notification (`bot.send_message` call,
whether or not it succeeds), and the batched `save_alerts` write. -/
inductive Event where
  | fetch (sym : String)
  | notify (user_id : ℤ) (sym : String) (direction : String)
      (target : PyFloat) (price : PyFloat)
  | save (items : List Alert)
deriving DecidableEq

/-- Whether an event is the batched save. -/
def Event.isSave : Event → Bool
  | .save _ => true
  | _ => false

/-- Whether an event is a notification attempt. -/
def Event.isNotify : Event → Bool
  | .notify _ _ _ _ _ => true
  | _ => false

/-- Whether an event is a price fetch of symbol `s`. -/
def isFetchOf (s : String) : Event → Bool
  | .fetch t => t == s
  | _ => false

/-- Result of the evaluation loop over the in-memory collection:
the collection after the loop, the `changed` flag, the notification
attempts in order, and whether a raised `bot.send_message` aborted the
loop (propagating to the cycle-level `except`). -/
structure EvalResult where
  alerts : List Alert
  changed : Bool
  events : List Event
  aborted : Bool
deriving DecidableEq

/-- The per-alert evaluation loop of `alerts_checker` (bot.py lines
1569-1592): skip inactive records, skip records whose price is
unavailable, and on a hit flip `active` in memory, then call
`bot.send_message`; a raised send aborts the rest of the loop. -/
def evalAlerts (ok : ℤ → Bool) (prices : List (String × Option PyFloat)) :
    List Alert → EvalResult
  | [] => { alerts := [], changed := false, events := [], aborted := false }
  | a :: rest =>
    if a.active = true then
      let sym := pyUpper a.symbol
      let direction := pyUpper a.direction
      match lookupPrice prices sym with
      | some cur =>
        if alertHit direction a.target cur then
          let a' := { a with active := false }
          let ev := Event.notify a.user_id sym direction a.target cur
          if ok a.user_id then
            let r := evalAlerts ok prices rest
            { alerts := a' :: r.alerts, changed := true,
              events := ev :: r.events, aborted := r.aborted }
          else
            { alerts := a' :: rest, changed := true, events := [ev], aborted := true }
        else
          let r := evalAlerts ok prices rest
          { alerts := a :: r.alerts, changed := r.changed,
            events := r.events, aborted := r.aborted }
      | none =>
        let r := evalAlerts ok prices rest
        { alerts := a :: r.alerts, changed := r.changed,
          events := r.events, aborted := r.aborted }
    else
      let r := evalAlerts ok prices rest
      { alerts := a :: r.alerts, changed := r.changed,
        events := r.events, aborted := r.aborted }

/-- Outcome of one alert record under one evaluation pass: the record the
loop leaves at that position when no abort cuts the loop short. -/
def stepRecord (prices : List (String × Option PyFloat)) (a : Alert) : Alert :=
  if a.active = true then
    match lookupPrice prices (pyUpper a.symbol) with
    | some cur =>
      if alertHit (pyUpper a.direction) a.target cur then { a with active := false } else a
    | none => a
  else a

/-- One full cycle of `alerts_checker` (bot.py lines 1555-1597) given the
store contents read at its start: fetch each distinct active symbol once,
run the evaluation loop, and write the collection back once if anything
changed.  Returns the store contents persisted at the end of the cycle
(unchanged when the cycle aborted, since `save_alerts` is then skipped by
the cycle-level `except`) together with the ordered event trace. -/
def runCycle (ok : ℤ → Bool) (priceOf : String → Option PyFloat)
    (store : List Alert) : List Alert × List Event :=
  let fetchEvents := (fetchList store).map Event.fetch
  let r := evalAlerts ok (cyclePrices priceOf store) store
  if r.aborted = true then (store, fetchEvents ++ r.events)
  else if r.changed = true then
    (r.alerts, fetchEvents ++ r.events ++ [Event.save r.alerts])
  else (store, fetchEvents ++ r.events)

/-- Minimal JSON value model for the persisted store layer. -/
inductive Json where
  | null
  | bool (b : Bool)
  | num (q : ℚ)
  | str (s : String)
  | arr (xs : List Json)
  | obj (kvs : List (String × Json))

/-- Whether a JSON value is an array (Python `isinstance(data, list)`). -/
def Json.isArr : Json → Bool
  | .arr _ => true
  | _ => false

/-- What reading the store file can yield: the file is absent, reading or
parsing it raised, or it parsed to a JSON value. -/
inductive ReadOutcome where
  | missing
  | unreadable
  | content (j : Json)

/-- Embedding of `_safe_read_json` (bot.py lines 193-199): the default is
returned when the file is missing or any exception is raised, otherwise
the parsed value. -/
def safe_read_json (r : ReadOutcome) (dflt : Json) : Json :=
  match r with
  | .missing => dflt
  | .unreadable => dflt
  | .content j => j

/-- Embedding of `load_alerts` (bot.py lines 250-252): read with default
`[]`, and degrade any non-list shape to `[]`. -/
def load_alerts_store (r : ReadOutcome) : List Json :=
  match safe_read_json r (Json.arr []) with
  | .arr xs => xs
  | _ => []

/-- Embedding of `save_alerts` over `_safe_write_json` (bot.py lines
202-207, 255-256): `writeOk` tells whether the underlying filesystem
write succeeds; a raised write is swallowed (`except Exception: pass`) and
the persisted content stays what it was.  The function is total: it never
propagates a failure to the caller. -/
def save_alerts_store (writeOk : Bool) (data : List Json) (st : ReadOutcome) :
    ReadOutcome :=
  if writeOk then .content (Json.arr data) else st

/-! Unfolding lemmas for the five branches of the evaluation loop. -/

theorem evalAlerts_cons_inactive (ok : ℤ → Bool) (ps : List (String × Option PyFloat))
    (a : Alert) (rest : List Alert) (h : a.active = false) :
    evalAlerts ok ps (a :: rest) =
      { alerts := a :: (evalAlerts ok ps rest).alerts,
        changed := (evalAlerts ok ps rest).changed,
        events := (evalAlerts ok ps rest).events,
        aborted := (evalAlerts ok ps rest).aborted } := by
  simp [evalAlerts, h]

theorem evalAlerts_cons_noprice (ok : ℤ → Bool) (ps : List (String × Option PyFloat))
    (a : Alert) (rest : List Alert) (h : a.active = true)
    (hlp : lookupPrice ps (pyUpper a.symbol) = none) :
    evalAlerts ok ps (a :: rest) =
      { alerts := a :: (evalAlerts ok ps rest).alerts,
        changed := (evalAlerts ok ps rest).changed,
        events := (evalAlerts ok ps rest).events,
        aborted := (evalAlerts ok ps rest).aborted } := by
  simp [evalAlerts, h, hlp]

theorem evalAlerts_cons_nohit (ok : ℤ → Bool) (ps : List (String × Option PyFloat))
    (a : Alert) (rest : List Alert) (cur : PyFloat) (h : a.active = true)
    (hlp : lookupPrice ps (pyUpper a.symbol) = some cur)
    (hhit : alertHit (pyUpper a.direction) a.target cur = false) :
    evalAlerts ok ps (a :: rest) =
      { alerts := a :: (evalAlerts ok ps rest).alerts,
        changed := (evalAlerts ok ps rest).changed,
        events := (evalAlerts ok ps rest).events,
        aborted := (evalAlerts ok ps rest).aborted } := by
  simp [evalAlerts, h, hlp, hhit]

theorem evalAlerts_cons_hit_sent (ok : ℤ → Bool) (ps : List (String × Option PyFloat))
    (a : Alert) (rest : List Alert) (cur : PyFloat) (h : a.active = true)
    (hlp : lookupPrice ps (pyUpper a.symbol) = some cur)
    (hhit : alertHit (pyUpper a.direction) a.target cur = true)
    (hok : ok a.user_id = true) :
    evalAlerts ok ps (a :: rest) =
      { alerts := { a with active := false } :: (evalAlerts ok ps rest).alerts,
        changed := true,
        events := Event.notify a.user_id (pyUpper a.symbol) (pyUpper a.direction)
            a.target cur :: (evalAlerts ok ps rest).events,
        aborted := (evalAlerts ok ps rest).aborted } := by
  simp [evalAlerts, h, hlp, hhit, hok]

theorem evalAlerts_cons_hit_abort (ok : ℤ → Bool) (ps : List (String × Option PyFloat))
    (a : Alert) (rest : List Alert) (cur : PyFloat) (h : a.active = true)
    (hlp : lookupPrice ps (pyUpper a.symbol) = some cur)
    (hhit : alertHit (pyUpper a.direction) a.target cur = true)
    (hok : ok a.user_id = false) :
    evalAlerts ok ps (a :: rest) =
      { alerts := { a with active := false } :: rest,
        changed := true,
        events := [Event.notify a.user_id (pyUpper a.symbol) (pyUpper a.direction)
            a.target cur],
        aborted := true } := by
  simp [evalAlerts, h, hlp, hhit, hok]

/-- Outcome of one record when nothing aborts, matching the loop branch
taken for it. -/
theorem stepRecord_eq_self_of_inactive (ps : List (String × Option PyFloat))
    (a : Alert) (h : a.active = false) : stepRecord ps a = a := by
  simp [stepRecord, h]

theorem stepRecord_eq_self_of_noprice (ps : List (String × Option PyFloat))
    (a : Alert) (h : a.active = true)
    (hlp : lookupPrice ps (pyUpper a.symbol) = none) : stepRecord ps a = a := by
  simp [stepRecord, h, hlp]

theorem stepRecord_eq_self_of_nohit (ps : List (String × Option PyFloat))
    (a : Alert) (cur : PyFloat) (h : a.active = true)
    (hlp : lookupPrice ps (pyUpper a.symbol) = some cur)
    (hhit : alertHit (pyUpper a.direction) a.target cur = false) :
    stepRecord ps a = a := by
  simp [stepRecord, h, hlp, hhit]

theorem stepRecord_eq_flip_of_hit (ps : List (String × Option PyFloat))
    (a : Alert) (cur : PyFloat) (h : a.active = true)
    (hlp : lookupPrice ps (pyUpper a.symbol) = some cur)
    (hhit : alertHit (pyUpper a.direction) a.target cur = true) :
    stepRecord ps a = { a with active := false } := by
  simp [stepRecord, h, hlp, hhit]

/-- The evaluation loop preserves the length of the in-memory collection,
also when it aborts. -/
theorem evalAlerts_length (ok : ℤ → Bool) (ps : List (String × Option PyFloat)) :
    ∀ items : List Alert, ((evalAlerts ok ps items).alerts).length = items.length := by
  intro items
  induction items with
  | nil => simp [evalAlerts]
  | cons a rest ih =>
    by_cases ha : a.active = true
    · cases hlp : lookupPrice ps (pyUpper a.symbol) with
      | some cur =>
        by_cases hhit : alertHit (pyUpper a.direction) a.target cur = true
        · by_cases hok : ok a.user_id = true
          · rw [evalAlerts_cons_hit_sent ok ps a rest cur ha hlp hhit hok]
            simpa using ih
          · rw [evalAlerts_cons_hit_abort ok ps a rest cur ha hlp hhit
              (by simpa using hok)]
            simp
        · rw [evalAlerts_cons_nohit ok ps a rest cur ha hlp (by simpa using hhit)]
          simpa using ih
      | none =>
        rw [evalAlerts_cons_noprice ok ps a rest ha hlp]
        simpa using ih
    · rw [evalAlerts_cons_inactive ok ps a rest (by simpa using ha)]
      simpa using ih

/-- When no send aborted the loop, the collection after the loop is the
record-wise image of `stepRecord`. -/
theorem evalAlerts_alerts_of_not_aborted (ok : ℤ → Bool)
    (ps : List (String × Option PyFloat)) :
    ∀ items : List Alert, (evalAlerts ok ps items).aborted = false →
      (evalAlerts ok ps items).alerts = items.map (stepRecord ps) := by
  intro items
  induction items with
  | nil => intro _; simp [evalAlerts]
  | cons a rest ih =>
    intro h
    by_cases ha : a.active = true
    · cases hlp : lookupPrice ps (pyUpper a.symbol) with
      | some cur =>
        by_cases hhit : alertHit (pyUpper a.direction) a.target cur = true
        · by_cases hok : ok a.user_id = true
          · rw [evalAlerts_cons_hit_sent ok ps a rest cur ha hlp hhit hok] at h ⊢
            simp only [List.map_cons, stepRecord_eq_flip_of_hit ps a cur ha hlp hhit]
            exact congrArg _ (ih (by simpa using h))
          · rw [evalAlerts_cons_hit_abort ok ps a rest cur ha hlp hhit
              (by simpa using hok)] at h
            simp at h
        · rw [evalAlerts_cons_nohit ok ps a rest cur ha hlp (by simpa using hhit)] at h ⊢
          simp only [List.map_cons,
            stepRecord_eq_self_of_nohit ps a cur ha hlp (by simpa using hhit)]
          exact congrArg _ (ih (by simpa using h))
      | none =>
        rw [evalAlerts_cons_noprice ok ps a rest ha hlp] at h ⊢
        simp only [List.map_cons, stepRecord_eq_self_of_noprice ps a ha hlp]
        exact congrArg _ (ih (by simpa using h))
    · rw [evalAlerts_cons_inactive ok ps a rest (by simpa using ha)] at h ⊢
      simp only [List.map_cons,
        stepRecord_eq_self_of_inactive ps a (by simpa using ha)]
      exact congrArg _ (ih (by simpa using h))

/-- When every send succeeds, the loop never aborts. -/
theorem evalAlerts_not_aborted_of_ok (ok : ℤ → Bool)
    (ps : List (String × Option PyFloat)) (hok : ∀ u, ok u = true) :
    ∀ items : List Alert, (evalAlerts ok ps items).aborted = false := by
  intro items
  induction items with
  | nil => simp [evalAlerts]
  | cons a rest ih =>
    by_cases ha : a.active = true
    · cases hlp : lookupPrice ps (pyUpper a.symbol) with
      | some cur =>
        by_cases hhit : alertHit (pyUpper a.direction) a.target cur = true
        · rw [evalAlerts_cons_hit_sent ok ps a rest cur ha hlp hhit (hok a.user_id)]
          simpa using ih
        · rw [evalAlerts_cons_nohit ok ps a rest cur ha hlp (by simpa using hhit)]
          simpa using ih
      | none =>
        rw [evalAlerts_cons_noprice ok ps a rest ha hlp]
        simpa using ih
    · rw [evalAlerts_cons_inactive ok ps a rest (by simpa using ha)]
      simpa using ih

/-- When the loop reports no change, no record fired, so the record-wise
pass is the identity. -/
theorem map_stepRecord_of_not_changed (ok : ℤ → Bool)
    (ps : List (String × Option PyFloat)) :
    ∀ items : List Alert, (evalAlerts ok ps items).changed = false →
      items.map (stepRecord ps) = items := by
  intro items
  induction items with
  | nil => intro _; simp
  | cons a rest ih =>
    intro h
    by_cases ha : a.active = true
    · cases hlp : lookupPrice ps (pyUpper a.symbol) with
      | some cur =>
        by_cases hhit : alertHit (pyUpper a.direction) a.target cur = true
        · by_cases hok : ok a.user_id = true
          · rw [evalAlerts_cons_hit_sent ok ps a rest cur ha hlp hhit hok] at h
            simp at h
          · rw [evalAlerts_cons_hit_abort ok ps a rest cur ha hlp hhit
              (by simpa using hok)] at h
            simp at h
        · rw [evalAlerts_cons_nohit ok ps a rest cur ha hlp (by simpa using hhit)] at h
          simp only [List.map_cons,
            stepRecord_eq_self_of_nohit ps a cur ha hlp (by simpa using hhit)]
          exact congrArg _ (ih (by simpa using h))
      | none =>
        rw [evalAlerts_cons_noprice ok ps a rest ha hlp] at h
        simp only [List.map_cons, stepRecord_eq_self_of_noprice ps a ha hlp]
        exact congrArg _ (ih (by simpa using h))
    · rw [evalAlerts_cons_inactive ok ps a rest (by simpa using ha)] at h
      simp only [List.map_cons,
        stepRecord_eq_self_of_inactive ps a (by simpa using ha)]
      exact congrArg _ (ih (by simpa using h))

/-- Every event emitted by the evaluation loop is a notification attempt. -/
theorem evalAlerts_events_all_notify (ok : ℤ → Bool)
    (ps : List (String × Option PyFloat)) :
    ∀ items : List Alert, ((evalAlerts ok ps items).events).all Event.isNotify = true := by
  intro items
  induction items with
  | nil => simp [evalAlerts]
  | cons a rest ih =>
    by_cases ha : a.active = true
    · cases hlp : lookupPrice ps (pyUpper a.symbol) with
      | some cur =>
        by_cases hhit : alertHit (pyUpper a.direction) a.target cur = true
        · by_cases hok : ok a.user_id = true
          · rw [evalAlerts_cons_hit_sent ok ps a rest cur ha hlp hhit hok]
            simpa [Event.isNotify] using ih
          · rw [evalAlerts_cons_hit_abort ok ps a rest cur ha hlp hhit
              (by simpa using hok)]
            simp [Event.isNotify]
        · rw [evalAlerts_cons_nohit ok ps a rest cur ha hlp (by simpa using hhit)]
          simpa using ih
      | none =>
        rw [evalAlerts_cons_noprice ok ps a rest ha hlp]
        simpa using ih
    · rw [evalAlerts_cons_inactive ok ps a rest (by simpa using ha)]
      simpa using ih

/-- One cycle never changes the number of stored records. -/
theorem runCycle_fst_length (ok : ℤ → Bool) (priceOf : String → Option PyFloat)
    (store : List Alert) : ((runCycle ok priceOf store).1).length = store.length := by
  unfold runCycle
  dsimp only
  split
  · rfl
  · split
    · exact evalAlerts_length ok (cyclePrices priceOf store) store
    · rfl

/-- When the loop did not abort, the persisted collection is exactly the
record-wise pass over the collection that was read. -/
theorem runCycle_fst_of_not_aborted (ok : ℤ → Bool)
    (priceOf : String → Option PyFloat) (store : List Alert)
    (h : (evalAlerts ok (cyclePrices priceOf store) store).aborted = false) :
    (runCycle ok priceOf store).1 = store.map (stepRecord (cyclePrices priceOf store)) := by
  unfold runCycle
  dsimp only
  simp only [h]
  split
  · simp_all
  · split
    · exact evalAlerts_alerts_of_not_aborted ok (cyclePrices priceOf store) store h
    · next hch =>
      exact (map_stepRecord_of_not_changed ok (cyclePrices priceOf store) store
        (by simpa using hch)).symm

/-- The persisted collection after a cycle is either the one that was read
(aborted cycle or no change) or its record-wise pass. -/
theorem runCycle_fst_cases (ok : ℤ → Bool) (priceOf : String → Option PyFloat)
    (store : List Alert) :
    (runCycle ok priceOf store).1 = store ∨
      (runCycle ok priceOf store).1 = store.map (stepRecord (cyclePrices priceOf store)) := by
  by_cases h : (evalAlerts ok (cyclePrices priceOf store) store).aborted = true
  · left
    unfold runCycle
    dsimp only
    simp only [h]
    rfl
  · right
    exact runCycle_fst_of_not_aborted ok priceOf store (by simpa using h)

/-- When every send succeeds, the persisted collection is the record-wise
pass over the collection that was read. -/
theorem runCycle_fst_of_allOk (ok : ℤ → Bool) (priceOf : String → Option PyFloat)
    (store : List Alert) (hok : ∀ u, ok u = true) :
    (runCycle ok priceOf store).1 = store.map (stepRecord (cyclePrices priceOf store)) :=
  runCycle_fst_of_not_aborted ok priceOf store
    (evalAlerts_not_aborted_of_ok ok (cyclePrices priceOf store) hok store)

/-- Shape of a cycle event trace: the fetches, then the notification
attempts, then the batched save when one happened. -/
theorem runCycle_snd_eq (ok : ℤ → Bool) (priceOf : String → Option PyFloat)
    (store : List Alert) :
    (runCycle ok priceOf store).2 =
      (fetchList store).map Event.fetch ++
        (evalAlerts ok (cyclePrices priceOf store) store).events ++
        (if (evalAlerts ok (cyclePrices priceOf store) store).aborted = false ∧
            (evalAlerts ok (cyclePrices priceOf store) store).changed = true then
          [Event.save (evalAlerts ok (cyclePrices priceOf store) store).alerts]
        else []) := by
  unfold runCycle
  dsimp only
  split
  · next h => simp [h]
  · next h =>
    split
    · next hch => simp [hch, by simpa using h]
    · next hch => simp [by simpa using hch]

/-- Retaining all but the last element keeps any pointwise property. -/
theorem all_dropLast {α : Type} (p : α → Bool) (l : List α)
    (h : l.all p = true) : (l.dropLast).all p = true := by
  rw [List.all_eq_true] at h ⊢
  intro x hx
  exact h x ((List.dropLast_sublist l).subset hx)

/-- Fetch events are not saves. -/
theorem fetch_map_nosave (l : List String) :
    (l.map Event.fetch).all (fun e => !(e.isSave)) = true := by
  rw [List.all_eq_true]
  intro x hx
  rcases List.mem_map.mp hx with ⟨s, _, rfl⟩
  simp [Event.isSave]

/-- Notification attempts are not saves. -/
theorem notify_all_nosave (l : List Event) (h : l.all Event.isNotify = true) :
    l.all (fun e => !(e.isSave)) = true := by
  rw [List.all_eq_true] at h ⊢
  intro x hx
  have := h x hx
  cases x <;> simp_all [Event.isNotify, Event.isSave]

/-- Notification attempts are not fetches of `s`. -/
theorem notify_countP_fetch (s : String) (l : List Event)
    (h : l.all Event.isNotify = true) : l.countP (isFetchOf s) = 0 := by
  rw [List.countP_eq_zero]
  intro x hx
  rw [List.all_eq_true] at h
  have := h x hx
  cases x <;> simp_all [Event.isNotify, isFetchOf]

/-- Insertion keeps the multiset of symbols. -/
theorem insortStr_perm (s : String) (l : List String) :
    List.Perm (insortStr s l) (s :: l) := by
  induction l with
  | nil => rfl
  | cons t r ih =>
    by_cases h : strLeB s t = true
    · simp [insortStr, h]
    · simp only [insortStr, h, if_false, Bool.false_eq_true]
      exact (ih.cons t).trans (List.Perm.swap s t r)

/-- Sorting keeps the multiset of symbols. -/
theorem sortStrings_perm (l : List String) : List.Perm (sortStrings l) l := by
  induction l with
  | nil => rfl
  | cons s r ih => exact (insortStr_perm s (sortStrings r)).trans (ih.cons s)

/-- Lookup in the built price dict fails for a symbol on which the oracle
fails, whether or not the symbol was fetched. -/
theorem lookupPrice_map_none (f : String → Option PyFloat) (l : List String)
    (s : String) (h : f s = none) :
    lookupPrice (l.map (fun t => (t, f t))) s = none := by
  induction l with
  | nil => simp [lookupPrice]
  | cons t r ih =>
    by_cases ht : (t == s) = true
    · have : t = s := by simpa using ht
      subst this
      simp [lookupPrice, List.find?_cons_of_pos, h]
    · simpa [lookupPrice, List.find?_cons_of_neg, ht] using ih

/-- Indexing through a map with an in-range index. -/
theorem getD_map_of_lt {α β : Type} (f : α → β) (l : List α) (i : ℕ) (d : β)
    (d' : α) (h : i < l.length) : (l.map f).getD i d = f (l.getD i d') := by
  rw [List.getD_eq_getElem _ _ (by simpa using h), List.getD_eq_getElem _ _ h,
    List.getElem_map]

/-- The firing condition for an `ABOVE` direction is exactly
`target <= current`. -/
theorem alertHit_above (t c : PyFloat) : alertHit "ABOVE" t c = PyFloat.le t c := by
  simp [alertHit, PyFloat.ge, show (("ABOVE" : String) == "BELOW") = false from by decide]

/-- The firing condition for a `BELOW` direction is exactly
`current <= target`. -/
theorem alertHit_below (t c : PyFloat) : alertHit "BELOW" t c = PyFloat.le c t := by
  simp [alertHit, PyFloat.ge, show (("BELOW" : String) == "ABOVE") = false from by decide]

/-- C1.  For every active alert with a resolved finite price in a cycle
whose deliveries succeed, the evaluator fires the alert (its persisted
`active` flag ends the cycle `false`) if and only if the direction is
`ABOVE` and `price >= target`, or the direction is `BELOW` and
`price <= target`; both boundaries are inclusive, so a price exactly
equal to the target fires in either direction (last two conjuncts). -/
theorem C1_evaluator_fires_iff (ok : ℤ → Bool) (priceOf : String → Option PyFloat)
    (store : List Alert) (i : ℕ) (d : Alert) (t p : ℚ)
    (hok : ∀ u, ok u = true) (hi : i < store.length)
    (hactive : (store.getD i d).active = true)
    (hdir : (store.getD i d).direction = "ABOVE" ∨ (store.getD i d).direction = "BELOW")
    (htgt : (store.getD i d).target = .finite t)
    (hprice : lookupPrice (cyclePrices priceOf store)
      (pyUpper (store.getD i d).symbol) = some (.finite p)) :
    ((((runCycle ok priceOf store).1.getD i d).active = false) ↔
      (((store.getD i d).direction = "ABOVE" ∧ t ≤ p) ∨
        ((store.getD i d).direction = "BELOW" ∧ p ≤ t))) ∧
    alertHit "ABOVE" (.finite t) (.finite t) = true ∧
    alertHit "BELOW" (.finite t) (.finite t) = true := by
  refine ⟨?_, by simp [alertHit_above, PyFloat.le], by simp [alertHit_below, PyFloat.le]⟩
  rw [runCycle_fst_of_allOk ok priceOf store hok,
    getD_map_of_lt (stepRecord (cyclePrices priceOf store)) store i d d hi]
  rcases hdir with h | h
  · have hup : pyUpper (store.getD i d).direction = "ABOVE" := by rw [h]; decide
    by_cases hle : t ≤ p
    · have hhit : alertHit (pyUpper (store.getD i d).direction)
          (store.getD i d).target (.finite p) = true := by
        rw [hup, htgt, alertHit_above]
        simpa [PyFloat.le] using hle
      rw [stepRecord_eq_flip_of_hit _ _ _ hactive hprice hhit]
      exact ⟨fun _ => Or.inl ⟨h, hle⟩, fun _ => rfl⟩
    · have hhit : alertHit (pyUpper (store.getD i d).direction)
          (store.getD i d).target (.finite p) = false := by
        rw [hup, htgt, alertHit_above]
        simpa [PyFloat.le] using hle
      rw [stepRecord_eq_self_of_nohit _ _ _ hactive hprice hhit]
      have hne : ("ABOVE" : String) ≠ "BELOW" := by decide
      constructor
      · intro hfalse
        rw [hactive] at hfalse
        cases hfalse
      · rintro (⟨_, hc⟩ | ⟨hb, _⟩)
        · exact absurd hc hle
        · exact absurd (h ▸ hb) hne
  · have hup : pyUpper (store.getD i d).direction = "BELOW" := by rw [h]; decide
    by_cases hle : p ≤ t
    · have hhit : alertHit (pyUpper (store.getD i d).direction)
          (store.getD i d).target (.finite p) = true := by
        rw [hup, htgt, alertHit_below]
        simpa [PyFloat.le] using hle
      rw [stepRecord_eq_flip_of_hit _ _ _ hactive hprice hhit]
      exact ⟨fun _ => Or.inr ⟨h, hle⟩, fun _ => rfl⟩
    · have hhit : alertHit (pyUpper (store.getD i d).direction)
          (store.getD i d).target (.finite p) = false := by
        rw [hup, htgt, alertHit_below]
        simpa [PyFloat.le] using hle
      rw [stepRecord_eq_self_of_nohit _ _ _ hactive hprice hhit]
      have hne : ("BELOW" : String) ≠ "ABOVE" := by decide
      constructor
      · intro hfalse
        rw [hactive] at hfalse
        cases hfalse
      · rintro (⟨ha2, _⟩ | ⟨_, hc⟩)
        · exact absurd (h ▸ ha2) hne
        · exact absurd hc hle

/-- Store and oracle used to witness C1 at the boundary price = target. -/
def c1Store : List Alert := [⟨1, "BTC", "ABOVE", .finite 100, true, "t"⟩]

/-- Price oracle resolving BTC to exactly the target of `c1Store`. -/
def c1Price : String → Option PyFloat :=
  fun s => if s == "BTC" then some (.finite 100) else none

/-- Witness for C1: the single alert of `c1Store` at the boundary price
100 = target 100 fires. -/
theorem C1_evaluator_fires_iff_witness :
    ((((runCycle (fun _ => true) c1Price c1Store).1.getD 0 defaultAlert).active = false) ↔
      (((c1Store.getD 0 defaultAlert).direction = "ABOVE" ∧ (100 : ℚ) ≤ 100) ∨
        ((c1Store.getD 0 defaultAlert).direction = "BELOW" ∧ (100 : ℚ) ≤ 100))) ∧
    alertHit "ABOVE" (.finite 100) (.finite 100) = true ∧
    alertHit "BELOW" (.finite 100) (.finite 100) = true :=
  C1_evaluator_fires_iff (fun _ => true) c1Price c1Store 0 defaultAlert 100 100
    (fun _ => rfl) (by decide) (by decide) (Or.inl (by decide)) (by decide) (by decide)

/-- Two-owner store used to exhibit the delivery-failure bug: both alerts
hit at price 150. -/
def bugStore : List Alert :=
  [⟨1, "BTC", "ABOVE", .finite 100, true, "t1"⟩,
   ⟨2, "BTC", "ABOVE", .finite 100, true, "t2"⟩]

/-- Price oracle resolving BTC to 150, above both targets of `bugStore`. -/
def bugPrice : String → Option PyFloat :=
  fun s => if s == "BTC" then some (.finite 150) else none

/-- Delivery oracle of the failing cycle: the send to user 1 succeeds, the
send to user 2 raises. -/
def bugOk : ℤ → Bool := fun u => u == 1

/-- C2.  Demonstration of the divergence at the failing input: in cycle
one the alert of user 1 fires and its notification is delivered, but the
raised send to user 2 aborts the cycle before the batched save, so the
persisted store is unchanged and still holds both alerts as active; the
next cycle (all deliveries succeeding) fires and delivers the very same
alert of user 1 a second time.  The claim states an alert is never fired
twice; the code violates it. -/
theorem C2_refire_demo :
    (runCycle bugOk bugPrice bugStore).1 = bugStore ∧
    Event.notify 1 "BTC" "ABOVE" (.finite 100) (.finite 150)
      ∈ (runCycle bugOk bugPrice bugStore).2 ∧
    Event.notify 1 "BTC" "ABOVE" (.finite 100) (.finite 150)
      ∈ (runCycle (fun _ => true) bugPrice ((runCycle bugOk bugPrice bugStore).1)).2 := by
  refine ⟨by decide, by decide, by decide⟩

/-- C3.  Demonstration of the divergence at the failing input: in the
cycle over `bugStore` the alert of user 1 fires and its notification is
delivered, yet because the later send to user 2 raises, `save_alerts` is
never reached and the record ends the cycle still `active = true` in the
persisted store.  The claim states every fired alert ends the cycle with
`active = false` persisted regardless of delivery outcomes; the code
violates it. -/
theorem C3_fired_not_persisted_demo :
    Event.notify 1 "BTC" "ABOVE" (.finite 100) (.finite 150)
      ∈ (runCycle bugOk bugPrice bugStore).2 ∧
    ((runCycle bugOk bugPrice bugStore).1.getD 0 defaultAlert).active = true ∧
    ((runCycle bugOk bugPrice bugStore).1.getD 1 defaultAlert).active = true := by
  refine ⟨by decide, by decide, by decide⟩

/-- Single-alert store for the C4 counterexample. -/
def c4Store : List Alert := [⟨1, "BTC", "ABOVE", .finite 100, true, "t"⟩]

/-- The record of `c4Store` after firing. -/
def c4Fired : Alert := ⟨1, "BTC", "ABOVE", .finite 100, false, "t"⟩

/-- C4 counterexample.  In a fully successful cycle over `c4Store` the
event trace is fetch, then the notification, then the batched save: the
notification is dispatched before the write-back, so at the moment it is
sent the `active = false` state is not yet committed.  This refutes the
claim that the batched write-back happens before any notification of the
cycle is dispatched. -/
theorem C4_notify_before_save_cex :
    (runCycle (fun _ => true) bugPrice c4Store).2 =
      [Event.fetch "BTC",
       Event.notify 1 "BTC" "ABOVE" (.finite 100) (.finite 150),
       Event.save [c4Fired]] ∧
    Event.isSave (Event.notify 1 "BTC" "ABOVE" (.finite 100) (.finite 150)) = false ∧
    Event.isSave (Event.fetch "BTC") = false ∧
    Event.isSave (Event.save [c4Fired]) = true := by
  refine ⟨by decide, rfl, rfl, rfl⟩

/-- C4 amended.  Within every cycle the single batched write-back, when it
happens at all, is the final event of the cycle, after every notification
dispatched that cycle, and at most one save happens per cycle. -/
theorem C4_amended_save_last (ok : ℤ → Bool) (priceOf : String → Option PyFloat)
    (store : List Alert) :
    (((runCycle ok priceOf store).2.dropLast).all (fun e => !(e.isSave)) = true) ∧
    (runCycle ok priceOf store).2.countP Event.isSave ≤ 1 := by
  rw [runCycle_snd_eq]
  constructor
  · split
    · next h =>
      rw [List.dropLast_concat, List.all_append, Bool.and_eq_true]
      exact ⟨fetch_map_nosave _, notify_all_nosave _
        (evalAlerts_events_all_notify ok (cyclePrices priceOf store) store)⟩
    · next h =>
      rw [List.append_nil]
      apply all_dropLast
      rw [List.all_append, Bool.and_eq_true]
      exact ⟨fetch_map_nosave _, notify_all_nosave _
        (evalAlerts_events_all_notify ok (cyclePrices priceOf store) store)⟩
  · rw [List.countP_append, List.countP_append]
    have h1 : ((fetchList store).map Event.fetch).countP Event.isSave = 0 := by
      rw [List.countP_eq_zero]
      intro e he
      rcases List.mem_map.mp he with ⟨s, _, rfl⟩
      simp [Event.isSave]
    have h2 : ((evalAlerts ok (cyclePrices priceOf store) store).events).countP
        Event.isSave = 0 := by
      rw [List.countP_eq_zero]
      intro e he
      have hall := evalAlerts_events_all_notify ok (cyclePrices priceOf store) store
      rw [List.all_eq_true] at hall
      have := hall e he
      cases e <;> simp_all [Event.isNotify, Event.isSave]
    rw [h1, h2]
    split <;> simp [Event.isSave]

/-- C5.  If the price oracle fails for a symbol `s` in a cycle, then
(first conjunct) every record on that symbol ends the cycle exactly as it
was read, active and unevaluated, whatever the delivery outcomes; (second
conjunct) in a cycle whose deliveries succeed, every other active record
with a resolved price is still evaluated exactly against the firing
condition, so the failure of one symbol does not block the others; and (third
conjunct) an active record on `s` keeps `s` in the fetch set, so the next
cycle fetches `s` again regardless of the oracles used then. -/
theorem C5_fetch_failure_containment (priceOf : String → Option PyFloat)
    (store : List Alert) (s : String) (d : Alert)
    (hs : pyUpper s = s) (hfail : priceOf s = none) :
    (∀ (ok : ℤ → Bool) (i : ℕ), i < store.length →
        pyUpper ((store.getD i d).symbol) = s →
        (runCycle ok priceOf store).1.getD i d = store.getD i d) ∧
    (∀ (ok : ℤ → Bool) (i : ℕ) (cur : PyFloat), (∀ u, ok u = true) →
        i < store.length → (store.getD i d).active = true →
        lookupPrice (cyclePrices priceOf store)
          (pyUpper (store.getD i d).symbol) = some cur →
        ((((runCycle ok priceOf store).1.getD i d).active = false) ↔
          alertHit (pyUpper (store.getD i d).direction)
            (store.getD i d).target cur = true)) ∧
    (∀ (ok : ℤ → Bool) (a : Alert), a ∈ store → a.active = true →
        a.symbol = s → s ≠ "" →
        ∀ (ok2 : ℤ → Bool) (priceOf2 : String → Option PyFloat),
          Event.fetch s ∈ (runCycle ok2 priceOf2 ((runCycle ok priceOf store).1)).2) := by
  refine ⟨?_, ?_, ?_⟩
  · intro ok i hi hsym
    rcases runCycle_fst_cases ok priceOf store with hcase | hcase
    · rw [hcase]
    · rw [hcase, getD_map_of_lt _ _ i d d hi]
      have hnone : lookupPrice (cyclePrices priceOf store)
          (pyUpper (store.getD i d).symbol) = none := by
        rw [hsym]
        exact lookupPrice_map_none priceOf (fetchList store) s hfail
      by_cases ha : (store.getD i d).active = true
      · exact stepRecord_eq_self_of_noprice _ _ ha hnone
      · exact stepRecord_eq_self_of_inactive _ _ (by simpa using ha)
  · intro ok i cur hok hi hactive hcur
    rw [runCycle_fst_of_allOk ok priceOf store hok, getD_map_of_lt _ _ i d d hi]
    by_cases hhit : alertHit (pyUpper (store.getD i d).direction)
        (store.getD i d).target cur = true
    · rw [stepRecord_eq_flip_of_hit _ _ _ hactive hcur hhit]
      exact ⟨fun _ => hhit, fun _ => rfl⟩
    · rw [stepRecord_eq_self_of_nohit _ _ _ hactive hcur (by simpa using hhit)]
      constructor
      · intro hf
        rw [hactive] at hf
        cases hf
      · intro hh
        exact absurd hh hhit
  · intro ok a ha hact hsym hne ok2 priceOf2
    have hmem : a ∈ (runCycle ok priceOf store).1 := by
      rcases runCycle_fst_cases ok priceOf store with hcase | hcase
      · rw [hcase]; exact ha
      · rw [hcase]
        have hnone : lookupPrice (cyclePrices priceOf store) (pyUpper a.symbol) = none := by
          rw [hsym, hs]
          exact lookupPrice_map_none priceOf (fetchList store) s hfail
        exact List.mem_map.mpr ⟨a, ha, stepRecord_eq_self_of_noprice _ _ hact hnone⟩
    have hf : s ∈ fetchList ((runCycle ok priceOf store).1) := by
      apply List.mem_filter.mpr
      refine ⟨?_, by simp [hne]⟩
      apply (sortStrings_perm _).mem_iff.mpr
      apply List.mem_dedup.mpr
      exact List.mem_map.mpr ⟨a, List.mem_filter.mpr ⟨hmem, hact⟩, hsym⟩
    rw [runCycle_snd_eq]
    exact List.mem_append_left _
      (List.mem_append_left _ (List.mem_map.mpr ⟨s, hf, rfl⟩))

/-- Store used to witness C5: one active BTC alert whose price fetch
fails. -/
def c5Store : List Alert := [⟨1, "BTC", "ABOVE", .finite 100, true, "t"⟩]

/-- Witness for C5 at a concrete input: the oracle fails on every symbol
and the store holds one active BTC alert. -/
theorem C5_fetch_failure_containment_witness :
    (∀ (ok : ℤ → Bool) (i : ℕ), i < c5Store.length →
        pyUpper ((c5Store.getD i defaultAlert).symbol) = "BTC" →
        (runCycle ok (fun _ => none) c5Store).1.getD i defaultAlert =
          c5Store.getD i defaultAlert) ∧
    (∀ (ok : ℤ → Bool) (i : ℕ) (cur : PyFloat), (∀ u, ok u = true) →
        i < c5Store.length → (c5Store.getD i defaultAlert).active = true →
        lookupPrice (cyclePrices (fun _ => none) c5Store)
          (pyUpper (c5Store.getD i defaultAlert).symbol) = some cur →
        ((((runCycle ok (fun _ => none) c5Store).1.getD i defaultAlert).active = false) ↔
          alertHit (pyUpper (c5Store.getD i defaultAlert).direction)
            (c5Store.getD i defaultAlert).target cur = true)) ∧
    (∀ (ok : ℤ → Bool) (a : Alert), a ∈ c5Store → a.active = true →
        a.symbol = "BTC" → "BTC" ≠ "" →
        ∀ (ok2 : ℤ → Bool) (priceOf2 : String → Option PyFloat),
          Event.fetch "BTC" ∈
            (runCycle ok2 priceOf2 ((runCycle ok (fun _ => none) c5Store).1)).2) :=
  C5_fetch_failure_containment (fun _ => none) c5Store "BTC" defaultAlert
    (by decide) rfl

/-- C6.  A single cycle performs exactly one price fetch for each symbol
(nonempty ticker string) that some currently active record references, and
no fetch at all for any other symbol, in particular none for symbols
referenced only by inactive records; N active records sharing a symbol
thus cause exactly one fetch of it. -/
theorem C6_one_fetch_per_active_symbol (ok : ℤ → Bool)
    (priceOf : String → Option PyFloat) (store : List Alert) (s : String)
    (h : s ≠ "") :
    ((runCycle ok priceOf store).2).countP (isFetchOf s) =
      if store.any (fun a => a.active && a.symbol == s) then 1 else 0 := by
  rw [runCycle_snd_eq, List.countP_append, List.countP_append]
  have h2 : ((evalAlerts ok (cyclePrices priceOf store) store).events).countP
      (isFetchOf s) = 0 :=
    notify_countP_fetch s _
      (evalAlerts_events_all_notify ok (cyclePrices priceOf store) store)
  have h3 : ((if (evalAlerts ok (cyclePrices priceOf store) store).aborted = false ∧
        (evalAlerts ok (cyclePrices priceOf store) store).changed = true then
      [Event.save (evalAlerts ok (cyclePrices priceOf store) store).alerts]
    else []).countP (isFetchOf s)) = 0 := by
    split <;> simp [isFetchOf]
  have h1 : ((fetchList store).map Event.fetch).countP (isFetchOf s) =
      if store.any (fun a => a.active && a.symbol == s) then 1 else 0 := by
    rw [List.countP_map]
    have hc : (isFetchOf s) ∘ Event.fetch = fun t => t == s := by
      funext t
      simp [isFetchOf, Function.comp]
    rw [hc, ← List.count_eq_countP]
    unfold fetchList
    rw [List.count_eq_countP, List.countP_filter]
    have hpe : (fun (x : String) => (x == s) && !(x == "")) = fun x => x == s := by
      funext x
      by_cases hx : (x == s) = true
      · have hxs : x = s := by simpa using hx
        subst hxs
        simp [h]
      · simp [hx]
    rw [hpe, ← List.count_eq_countP]
    unfold activeSymbols
    rw [(sortStrings_perm _).count_eq, List.count_dedup]
    have hiff : s ∈ activeRawSymbols store ↔
        store.any (fun a => a.active && a.symbol == s) = true := by
      unfold activeRawSymbols
      simp only [List.mem_map, List.mem_filter, List.any_eq_true, Bool.and_eq_true,
        beq_iff_eq]
      constructor
      · rintro ⟨a, ⟨hmem, hact⟩, hsym⟩
        exact ⟨a, hmem, hact, hsym⟩
      · rintro ⟨a, hmem, hact, hsym⟩
        exact ⟨a, ⟨hmem, hact⟩, hsym⟩
    simp only [hiff]
  rw [h1, h2, h3]
  omega

/-- Store used to witness C6: two active BTC alerts, one inactive ETH
alert. -/
def c6Store : List Alert :=
  [⟨1, "BTC", "ABOVE", .finite 100, true, "a"⟩,
   ⟨2, "BTC", "BELOW", .finite 90, true, "b"⟩,
   ⟨1, "ETH", "ABOVE", .finite 10, false, "c"⟩]

/-- Witness for C6: over `c6Store`, a cycle whose oracle fails everywhere
fetches the shared symbol BTC exactly once, and the symbol ETH, referenced
only by an inactive record, zero times. -/
theorem C6_one_fetch_per_active_symbol_witness :
    (((runCycle (fun _ => true) (fun _ => none) c6Store).2).countP (isFetchOf "BTC") =
      if c6Store.any (fun a => a.active && a.symbol == "BTC") then 1 else 0) ∧
    (((runCycle (fun _ => true) (fun _ => none) c6Store).2).countP (isFetchOf "ETH") =
      if c6Store.any (fun a => a.active && a.symbol == "ETH") then 1 else 0) ∧
    (if c6Store.any (fun a => a.active && a.symbol == "BTC") then 1 else 0) = 1 ∧
    (if c6Store.any (fun a => a.active && a.symbol == "ETH") then 1 else 0) = 0 :=
  ⟨C6_one_fetch_per_active_symbol (fun _ => true) (fun _ => none) c6Store "BTC"
      (by decide),
   C6_one_fetch_per_active_symbol (fun _ => true) (fun _ => none) c6Store "ETH"
      (by decide),
   by decide, by decide⟩

/-- Shifting the enumeration counter shifts every produced index. -/
theorem ownerPositionsFrom_succ (user_id : ℤ) (l : List Alert) :
    ∀ n : ℕ, ownerPositionsFrom user_id (n + 1) l =
      (ownerPositionsFrom user_id n l).map (· + 1) := by
  induction l with
  | nil => intro n; rfl
  | cons a l ih =>
    intro n
    by_cases ha : (a.user_id == user_id) = true
    · simp [ownerPositionsFrom, ha, ih (n + 1)]
    · simp [ownerPositionsFrom, ha, ih (n + 1)]

/-- There are as many owner positions as records of that owner. -/
theorem ownerPositionsFrom_length (user_id : ℤ) (l : List Alert) :
    ∀ n : ℕ, (ownerPositionsFrom user_id n l).length =
      (list_alerts user_id l).length := by
  induction l with
  | nil => intro n; rfl
  | cons a l ih =>
    intro n
    by_cases ha : (a.user_id == user_id) = true
    · simp [ownerPositionsFrom, ha, list_alerts, List.filter_cons, ih (n + 1)]
    · simp [ownerPositionsFrom, ha, list_alerts, List.filter_cons, ih (n + 1)]

/-- Every owner position is an index into the collection. -/
theorem ownerPositionsFrom_lt (user_id : ℤ) (l : List Alert) :
    ∀ (n x : ℕ), x ∈ ownerPositionsFrom user_id n l → x < n + l.length := by
  induction l with
  | nil => intro n x hx; cases hx
  | cons a l ih =>
    intro n x hx
    by_cases ha : (a.user_id == user_id) = true
    · simp only [ownerPositionsFrom, ha, if_true, List.mem_cons] at hx
      rcases hx with rfl | hx
      · simp
      · have := ih (n + 1) x hx
        simp only [List.length_cons]
        omega
    · simp only [ownerPositionsFrom, ha, Bool.false_eq_true, if_false] at hx
      have := ih (n + 1) x hx
      simp only [List.length_cons]
      omega

/-- The j-th owner position indexes the j-th record of the owner
subsequence. -/
theorem ownerPositions_getD_spec (user_id : ℤ) (d : Alert) :
    ∀ (l : List Alert) (j : ℕ), j < (ownerPositions user_id l).length →
      l.getD ((ownerPositions user_id l).getD j 0) d =
        (list_alerts user_id l).getD j d := by
  intro l
  induction l with
  | nil => intro j hj; simp [ownerPositions, ownerPositionsFrom] at hj
  | cons a l ih =>
    intro j hj
    by_cases ha : (a.user_id == user_id) = true
    · have hcons : ownerPositions user_id (a :: l) =
          0 :: (ownerPositions user_id l).map (· + 1) := by
        unfold ownerPositions
        simp [ownerPositionsFrom, ha, ownerPositionsFrom_succ]
      have hfil : list_alerts user_id (a :: l) = a :: list_alerts user_id l := by
        simp [list_alerts, List.filter_cons, ha]
      rw [hcons] at hj ⊢
      rw [hfil]
      cases j with
      | zero => rfl
      | succ j =>
        have hjl : j < (ownerPositions user_id l).length := by
          simpa using hj
        rw [List.getD_cons_succ, List.getD_cons_succ,
          getD_map_of_lt (· + 1) _ j 0 0 hjl, List.getD_cons_succ]
        exact ih j hjl
    · have hcons : ownerPositions user_id (a :: l) =
          (ownerPositions user_id l).map (· + 1) := by
        unfold ownerPositions
        simp [ownerPositionsFrom, ha, ownerPositionsFrom_succ]
      have hfil : list_alerts user_id (a :: l) = list_alerts user_id l := by
        simp [list_alerts, List.filter_cons, ha]
      rw [hcons] at hj ⊢
      rw [hfil]
      have hjl : j < (ownerPositions user_id l).length := by simpa using hj
      rw [getD_map_of_lt (· + 1) _ j 0 0 hjl, List.getD_cons_succ]
      exact ih j hjl

/-- Flipping one record keeps the length. -/
theorem setInactive_length : ∀ (l : List Alert) (p : ℕ),
    (setInactive l p).length = l.length := by
  intro l
  induction l with
  | nil => intro p; rfl
  | cons a l ih =>
    intro p
    cases p with
    | zero => rfl
    | succ p => simp [setInactive, ih p]

/-- The flipped record keeps every field except `active`. -/
theorem setInactive_getD_self (d : Alert) : ∀ (l : List Alert) (p : ℕ),
    p < l.length →
    (setInactive l p).getD p d = { l.getD p d with active := false } := by
  intro l
  induction l with
  | nil => intro p hp; cases hp
  | cons a l ih =>
    intro p hp
    cases p with
    | zero => rfl
    | succ p => exact ih p (by simpa using hp)

/-- Every other position is untouched by the flip. -/
theorem setInactive_getD_other (d : Alert) : ∀ (l : List Alert) (p j : ℕ),
    j ≠ p → (setInactive l p).getD j d = l.getD j d := by
  intro l
  induction l with
  | nil => intro p j _; cases p <;> rfl
  | cons a l ih =>
    intro p j hj
    cases p with
    | zero =>
      cases j with
      | zero => exact absurd rfl hj
      | succ j => rfl
    | succ p =>
      cases j with
      | zero => rfl
      | succ j => exact ih p j (by omega)

/-- Flipping the same record twice is the same as flipping it once. -/
theorem setInactive_idem : ∀ (l : List Alert) (p : ℕ),
    setInactive (setInactive l p) p = setInactive l p := by
  intro l
  induction l with
  | nil => intro p; rfl
  | cons a l ih =>
    intro p
    cases p with
    | zero => rfl
    | succ p => simp [setInactive, ih p]

/-- Flipping `active` never moves, adds or removes owner positions, for
any owner: the `user_id` fields are untouched. -/
theorem ownerPositionsFrom_setInactive (user_id : ℤ) : ∀ (l : List Alert) (n p : ℕ),
    ownerPositionsFrom user_id n (setInactive l p) =
      ownerPositionsFrom user_id n l := by
  intro l
  induction l with
  | nil => intro n p; rfl
  | cons a l ih =>
    intro n p
    cases p with
    | zero =>
      show ownerPositionsFrom user_id n ({ a with active := false } :: l) = _
      by_cases ha : (a.user_id == user_id) = true
      · simp [ownerPositionsFrom, ha]
      · simp [ownerPositionsFrom, ha]
    | succ p =>
      show ownerPositionsFrom user_id n (a :: setInactive l p) = _
      by_cases ha : (a.user_id == user_id) = true
      · simp [ownerPositionsFrom, ha, ih (n + 1) p]
      · simp [ownerPositionsFrom, ha, ih (n + 1) p]

/-- C7.  For every owner and 1-based ordinal `k`: when `k` exceeds the
number of that owner records, `deactivate_alert` returns not-found and
leaves the collection unchanged; when `k` is in range it returns `true`
and the new collection is the old one with `active` flipped to `false` on
exactly the global position holding the k-th record of the owner
insertion-ordered subsequence (not the k-th record of the global store):
that position is in range, holds the k-th record of the owner
subsequence, keeps every field but `active`, and every other position,
including every record of every other owner, is untouched. -/
theorem C7_deactivate_owner_ordinal (user_id : ℤ) (k : ℕ) (items : List Alert)
    (d : Alert) (hk : 1 ≤ k) :
    ((list_alerts user_id items).length < k →
      deactivate_alert user_id ((k : ℤ) - 1) items = (items, false)) ∧
    (k ≤ (list_alerts user_id items).length →
      (deactivate_alert user_id ((k : ℤ) - 1) items).2 = true ∧
      (deactivate_alert user_id ((k : ℤ) - 1) items).1 =
        setInactive items ((ownerPositions user_id items).getD (k - 1) 0) ∧
      (ownerPositions user_id items).getD (k - 1) 0 < items.length ∧
      items.getD ((ownerPositions user_id items).getD (k - 1) 0) d =
        (list_alerts user_id items).getD (k - 1) d ∧
      (deactivate_alert user_id ((k : ℤ) - 1) items).1.getD
          ((ownerPositions user_id items).getD (k - 1) 0) d =
        { items.getD ((ownerPositions user_id items).getD (k - 1) 0) d with
            active := false } ∧
      (∀ j : ℕ, j ≠ (ownerPositions user_id items).getD (k - 1) 0 →
        (deactivate_alert user_id ((k : ℤ) - 1) items).1.getD j d =
          items.getD j d)) := by
  have hlen : (ownerPositions user_id items).length =
      (list_alerts user_id items).length :=
    ownerPositionsFrom_length user_id items 0
  constructor
  · intro hlt
    unfold deactivate_alert
    dsimp only
    rw [if_pos (Or.inr (by rw [hlen]; omega))]
  · intro hle
    have hcond : ¬((k : ℤ) - 1 < 0 ∨
        ((ownerPositions user_id items).length : ℤ) ≤ (k : ℤ) - 1) := by
      rw [hlen]
      omega
    have htn : ((k : ℤ) - 1).toNat = k - 1 := by omega
    have hbound : k - 1 < (ownerPositions user_id items).length := by
      rw [hlen]; omega
    have hp : (ownerPositions user_id items).getD (k - 1) 0 < items.length := by
      have hmem : (ownerPositions user_id items).getD (k - 1) 0 ∈
          ownerPositions user_id items := by
        rw [List.getD_eq_getElem _ _ hbound]
        exact List.getElem_mem hbound
      simpa using ownerPositionsFrom_lt user_id items 0 _ hmem
    have hres : deactivate_alert user_id ((k : ℤ) - 1) items =
        (setInactive items ((ownerPositions user_id items).getD (k - 1) 0), true) := by
      unfold deactivate_alert
      dsimp only
      rw [if_neg hcond, htn]
    refine ⟨by rw [hres], by rw [hres], hp,
      ownerPositions_getD_spec user_id d items (k - 1) hbound, ?_, ?_⟩
    · rw [hres]
      exact setInactive_getD_self d items _ hp
    · intro j hj
      rw [hres]
      exact setInactive_getD_other d items _ j hj

/-- Store used to witness C7 and C10: records of owners 7 and 8
interleaved, so owner ordinals differ from global indices. -/
def c7Store : List Alert :=
  [⟨8, "BTC", "ABOVE", .finite 1, true, "x"⟩,
   ⟨7, "BTC", "ABOVE", .finite 2, true, "y"⟩,
   ⟨8, "ETH", "BELOW", .finite 3, true, "z"⟩,
   ⟨7, "SOL", "BELOW", .finite 4, true, "w"⟩]

/-- Witness for C7 at owner 7 and ordinal 2: the in-range branch flips the
record at global index 3 (the second record of owner 7), not the record at
global index 1. -/
theorem C7_deactivate_owner_ordinal_witness :
    ((list_alerts 7 c7Store).length < 2 →
      deactivate_alert 7 ((2 : ℤ) - 1) c7Store = (c7Store, false)) ∧
    (2 ≤ (list_alerts 7 c7Store).length →
      (deactivate_alert 7 ((2 : ℤ) - 1) c7Store).2 = true ∧
      (deactivate_alert 7 ((2 : ℤ) - 1) c7Store).1 =
        setInactive c7Store ((ownerPositions 7 c7Store).getD (2 - 1) 0) ∧
      (ownerPositions 7 c7Store).getD (2 - 1) 0 < c7Store.length ∧
      c7Store.getD ((ownerPositions 7 c7Store).getD (2 - 1) 0) defaultAlert =
        (list_alerts 7 c7Store).getD (2 - 1) defaultAlert ∧
      (deactivate_alert 7 ((2 : ℤ) - 1) c7Store).1.getD
          ((ownerPositions 7 c7Store).getD (2 - 1) 0) defaultAlert =
        { c7Store.getD ((ownerPositions 7 c7Store).getD (2 - 1) 0) defaultAlert with
            active := false } ∧
      (∀ j : ℕ, j ≠ (ownerPositions 7 c7Store).getD (2 - 1) 0 →
        (deactivate_alert 7 ((2 : ℤ) - 1) c7Store).1.getD j defaultAlert =
          c7Store.getD j defaultAlert)) :=
  C7_deactivate_owner_ordinal 7 2 c7Store defaultAlert (by decide)

/-- C10.  Ordinals are computed over the owner full subsequence including
inactive records, so deactivation never shifts any owner positions (first
conjunct, for every owner), and deactivating an in-range ordinal a second
time still returns success and leaves the collection exactly as after the
first deactivation (third conjunct). -/
theorem C10_ordinal_stability_idempotence (user_id : ℤ) (k : ℕ)
    (items : List Alert) (hk : 1 ≤ k)
    (hin : k ≤ (list_alerts user_id items).length) :
    (∀ uid2 : ℤ, ownerPositions uid2 ((deactivate_alert user_id ((k : ℤ) - 1) items).1) =
        ownerPositions uid2 items) ∧
    (deactivate_alert user_id ((k : ℤ) - 1) items).2 = true ∧
    deactivate_alert user_id ((k : ℤ) - 1)
        ((deactivate_alert user_id ((k : ℤ) - 1) items).1) =
      deactivate_alert user_id ((k : ℤ) - 1) items := by
  have hlen : (ownerPositions user_id items).length =
      (list_alerts user_id items).length :=
    ownerPositionsFrom_length user_id items 0
  have hcond : ¬((k : ℤ) - 1 < 0 ∨
      ((ownerPositions user_id items).length : ℤ) ≤ (k : ℤ) - 1) := by
    rw [hlen]
    omega
  have htn : ((k : ℤ) - 1).toNat = k - 1 := by omega
  have hres : deactivate_alert user_id ((k : ℤ) - 1) items =
      (setInactive items ((ownerPositions user_id items).getD (k - 1) 0), true) := by
    unfold deactivate_alert
    dsimp only
    rw [if_neg hcond, htn]
  have hstab : ∀ uid2 : ℤ,
      ownerPositions uid2 ((deactivate_alert user_id ((k : ℤ) - 1) items).1) =
        ownerPositions uid2 items := by
    intro uid2
    rw [hres]
    exact ownerPositionsFrom_setInactive uid2 items 0 _
  refine ⟨hstab, by rw [hres], ?_⟩
  have hP : ownerPositions user_id
      (setInactive items ((ownerPositions user_id items).getD (k - 1) 0)) =
      ownerPositions user_id items :=
    ownerPositionsFrom_setInactive user_id items 0 _
  have hcond2 : ¬((k : ℤ) - 1 < 0 ∨
      ((ownerPositions user_id
        (setInactive items ((ownerPositions user_id items).getD (k - 1) 0))).length : ℤ)
        ≤ (k : ℤ) - 1) := by
    rw [hP]
    exact hcond
  have hres3 : deactivate_alert user_id ((k : ℤ) - 1)
      (setInactive items ((ownerPositions user_id items).getD (k - 1) 0)) =
      (setInactive (setInactive items ((ownerPositions user_id items).getD (k - 1) 0))
        ((ownerPositions user_id
          (setInactive items
            ((ownerPositions user_id items).getD (k - 1) 0))).getD (k - 1) 0), true) := by
    unfold deactivate_alert
    dsimp only
    rw [if_neg hcond2, htn]
  rw [hres]
  dsimp only
  rw [hres3, hP, setInactive_idem]

/-- Witness for C10 at owner 7 and ordinal 1 over `c7Store`. -/
theorem C10_ordinal_stability_idempotence_witness :
    (∀ uid2 : ℤ, ownerPositions uid2 ((deactivate_alert 7 ((1 : ℤ) - 1) c7Store).1) =
        ownerPositions uid2 c7Store) ∧
    (deactivate_alert 7 ((1 : ℤ) - 1) c7Store).2 = true ∧
    deactivate_alert 7 ((1 : ℤ) - 1) ((deactivate_alert 7 ((1 : ℤ) - 1) c7Store).1) =
      deactivate_alert 7 ((1 : ℤ) - 1) c7Store :=
  C10_ordinal_stability_idempotence 7 1 c7Store (by decide) (by decide)

/-- C8.  A missing, unreadable or unparseable store file, and any parsed
content that is not a list, all degrade to an empty alert sequence instead
of an exception; the checker completes a no-op cycle over the resulting
empty collection (no state change, no events); and a failed write is
swallowed, leaving the persisted content as it was, with the write
operation returning normally in both cases by totality. -/
theorem C8_storage_degrades :
    (∀ d : Json, safe_read_json .missing d = d) ∧
    (∀ d : Json, safe_read_json .unreadable d = d) ∧
    load_alerts_store .missing = [] ∧
    load_alerts_store .unreadable = [] ∧
    (∀ j : Json, j.isArr = false → load_alerts_store (.content j) = []) ∧
    (∀ (ok : ℤ → Bool) (priceOf : String → Option PyFloat),
      runCycle ok priceOf [] = ([], [])) ∧
    (∀ (data : List Json) (st : ReadOutcome), save_alerts_store false data st = st) := by
  refine ⟨fun d => rfl, fun d => rfl, rfl, rfl, ?_, fun ok priceOf => rfl,
    fun data st => rfl⟩
  intro j hj
  cases j <;> simp_all [Json.isArr, load_alerts_store, safe_read_json]

/-- Witness for C8: a store file holding a JSON object rather than a list
degrades to the empty alert sequence. -/
theorem C8_storage_degrades_witness :
    load_alerts_store (.content (Json.obj [("a", Json.num 1)])) = [] :=
  C8_storage_degrades.2.2.2.2.1 (Json.obj [("a", Json.num 1)]) rfl

/-- C9 counterexample.  The input text `BTC ABOVE 0` is accepted by the
user-facing add-alert flow, yet its parsed target is 0, which is not a
strictly positive finite value; this refutes the claim that every
accepted input yields a target greater than zero. -/
theorem C9_nonpositive_target_cex :
    parse_alert_input "BTC ABOVE 0" = some ("BTC", "ABOVE", PyFloat.finite 0) ∧
    PyFloat.isPosFinite (PyFloat.finite 0) = false := by
  refine ⟨by decide, by decide⟩

/-- C9 amended.  The add-alert flow validates only the symbol vocabulary,
the direction keyword, and float-parseability of the target token; it
imposes no positivity or finiteness constraint, so zero, negative,
infinite, and NaN targets are all accepted and are stored unchanged by
`add_alert` in an active record. -/
theorem C9_amended_target_unconstrained :
    parse_alert_input "BTC ABOVE 0" = some ("BTC", "ABOVE", PyFloat.finite 0) ∧
    parse_alert_input "eth below -5" = some ("ETH", "BELOW", PyFloat.finite (-5)) ∧
    parse_alert_input "SOL ABOVE INF" = some ("SOL", "ABOVE", PyFloat.inf) ∧
    parse_alert_input "USDUAH BELOW NAN" = some ("USDUAH", "BELOW", PyFloat.nan) ∧
    add_alert 1 "BTC" "ABOVE" (PyFloat.finite 0) "2024-01-01T00:00:00" [] =
      [⟨1, "BTC", "ABOVE", PyFloat.finite 0, true, "2024-01-01T00:00:00"⟩] := by
  refine ⟨by decide, by decide, by decide, by decide, by decide⟩
